import Mathlib

/-!
Verification of the `useForm` controller of solidjs-hook-form
(src/src/solidHookForm.ts) against its specification.

The controller state is two string-keyed records backed by SolidJS stores:
`form` (Field Values) and `formErrors` (Field Errors).  We model each record
as an association list `List (String × String)` in property-insertion order,
with JS property read (`obj[k]`), property write (`obj[k] = v`, appending the
key when absent), and key enumeration (`Object.keys`).

The Zod schema is modelled by its observable interface: the ordered key list
of `schema.shape` (`Object.keys(schema.shape)`) and the `safeParse` function,
which either succeeds or yields an ordered list of issues, each carrying a
`path` (list of key segments) and a `message`.  `superRefine` lets a real Zod
schema emit issues with arbitrary paths, so `safeParse` is an arbitrary
function of the values record.
-/

namespace SolidHookForm

/-- One Zod validation issue: a path of key segments and a message. -/
structure Issue where
  path : List String
  message : String
  deriving DecidableEq

/-- Result of `schema.safeParse`: success, or failure with the ordered
issue list `result.error.issues`. -/
inductive ParseResult where
  | success : ParseResult
  | failure : List Issue → ParseResult
  deriving DecidableEq

/-- The observable interface of a Zod object schema: the ordered keys of
`schema.shape` and the `safeParse` validation function. -/
structure Schema where
  shapeKeys : List String
  safeParse : List (String × String) → ParseResult

/-- JS property read `obj[k]` on a record: first binding for the key wins. -/
def lookup : List (String × String) → String → Option String
  | [], _ => none
  | p :: rest, k => if p.1 = k then some p.2 else lookup rest k

/-- JS property write `obj[k] = v` (what a SolidJS store setter performs on
one key): overwrite the binding when present, append it when absent. -/
def setKey : List (String × String) → String → String → List (String × String)
  | [], k, v => [(k, v)]
  | p :: rest, k, v => if p.1 = k then (k, v) :: rest else p :: setKey rest k v

/-- `Object.keys` of a record. -/
def keysOf (m : List (String × String)) : List String :=
  m.map (fun p => p.1)

/-- `initialFormState`: every key of `schema.shape` bound to `""`
(`Object.fromEntries(formKeys.map((key) => [key, ""]))`). -/
def initialFormState (s : Schema) : List (String × String) :=
  s.shapeKeys.map (fun k => (k, ""))

/-- The controller state: the `form` store (Field Values) and the
`formErrors` store (Field Errors). -/
structure FormState where
  form : List (String × String)
  formErrors : List (String × String)
  deriving DecidableEq

/-- `useForm(schema)` construction: `form` starts as a copy of
`initialFormState`, `formErrors` starts as the empty record `{}`. -/
def useForm (s : Schema) : FormState :=
  { form := initialFormState s, formErrors := [] }

/-- The property names the JS `in` operator finds on a plain object literal
through its `Object.prototype` chain even though they are not own keys.
`schema.shape` is the raw object literal handed to `z.object`, so
`name in schema.shape` is `true` for these names as well. -/
def objectPrototypeKeys : List String :=
  ["constructor", "hasOwnProperty", "isPrototypeOf", "propertyIsEnumerable",
   "toLocaleString", "toString", "valueOf", "__proto__",
   "__defineGetter__", "__defineSetter__", "__lookupGetter__", "__lookupSetter__"]

/-- `handleChange`: given the event target's `name` and `value`, write the
value into the `form` store when `name in schema.shape`; otherwise only
`console.error` runs and the state is untouched.  The JS `in` operator
matches the shape's own keys and the properties inherited from
`Object.prototype`. -/
def handleChange (s : Schema) (st : FormState) (name value : String) : FormState :=
  if name ∈ s.shapeKeys ∨ name ∈ objectPrototypeKeys then
    { st with form := setKey st.form name value }
  else
    st

/-- The issue loop of `validate`: for each issue in order, when
`issue.path[0]` is truthy (the path has a head and the head is not the empty
string) write `formErrors[path[0]] = message`; otherwise only `console.error`
runs.  A later issue overwrites an earlier one on the same key. -/
def applyIssues (errs : List (String × String)) : List Issue → List (String × String)
  | [] => errs
  | issue :: rest =>
    match issue.path with
    | [] => applyIssues errs rest
    | k :: _ =>
      if k = "" then applyIssues errs rest
      else applyIssues (setKey errs k issue.message) rest

/-- `validate`: run `schema.safeParse(form)`, reset `formErrors` to
`reconcile(initialFormState)` (the source performs this reconcile once
before the branch and, redundantly, once more in the failure branch), then
on failure run the issue loop.  Returns the boolean result together with the
new state; the `form` store is never written. -/
def validate (s : Schema) (st : FormState) : Bool × FormState :=
  match s.safeParse st.form with
  | ParseResult.success =>
    (true, { st with formErrors := initialFormState s })
  | ParseResult.failure issues =>
    (false, { st with formErrors := applyIssues (initialFormState s) issues })

/-- The message of the last issue in the list whose first path segment is
`k`, if any — the spec's "last issue wins" for the field `k`. -/
def lastMessageFor : List Issue → String → Option String
  | [], _ => none
  | issue :: rest, k =>
    match lastMessageFor rest k with
    | some m => some m
    | none => if issue.path.head? = some k then some issue.message else none

/-- States reachable from construction by `handleChange` and `validate`
calls (the raw setters are excluded, as in the spec's invariant). -/
inductive Reachable (s : Schema) : FormState → Prop
  | init : Reachable s (useForm s)
  | change (st : FormState) (n v : String) :
      Reachable s st → Reachable s (handleChange s st n v)
  | valid (st : FormState) :
      Reachable s st → Reachable s (validate s st).2

/-- The validator only reports issues whose truthy first path segment is one
of the schema's own keys (true of plain field rules; `superRefine` can
violate it). -/
def IssuesTargetSchemaKeys (s : Schema) : Prop :=
  ∀ form issues, s.safeParse form = ParseResult.failure issues →
    ∀ issue ∈ issues, ∀ k rest, issue.path = k :: rest → k ≠ "" → k ∈ s.shapeKeys

/-! ### Concrete schemas and states used as witnesses and counterexamples -/

/-- The registration schema of the README: `password` must equal
`confirmPassword`, otherwise a `superRefine` issue with path
`["confirmPassword"]` is reported. -/
def registerSchema : Schema where
  shapeKeys := ["password", "confirmPassword"]
  safeParse := fun form =>
    if lookup form "password" = lookup form "confirmPassword" then
      ParseResult.success
    else
      ParseResult.failure [{ path := ["confirmPassword"], message := "The passwords do not match" }]

/-- A schema whose cross-field rule reports its issue with first path
segment `""` — a non-empty path whose head is falsy in JS. -/
def emptySegmentSchema : Schema where
  shapeKeys := ["a"]
  safeParse := fun _ =>
    ParseResult.failure [{ path := [""], message := "boom" }]

/-- A schema whose `superRefine` reports an issue at path `["b"]` although
`"b"` is not a key of the schema's shape. -/
def roguePathSchema : Schema where
  shapeKeys := ["a"]
  safeParse := fun _ =>
    ParseResult.failure [{ path := ["b"], message := "rogue" }]

/-- A schema that reports a form-level issue with an empty path when
`password` and `confirmPassword` differ. -/
def crossFieldSchema : Schema where
  shapeKeys := ["password", "confirmPassword"]
  safeParse := fun form =>
    if lookup form "password" = lookup form "confirmPassword" then
      ParseResult.success
    else
      ParseResult.failure [{ path := [], message := "mismatch" }]

/-- A schema two of whose issues target the same field, to exercise
"last issue wins". -/
def duplicateIssueSchema : Schema where
  shapeKeys := ["email"]
  safeParse := fun _ =>
    ParseResult.failure
      [{ path := ["email"], message := "first" },
       { path := ["email"], message := "second" }]

/-- A state whose passwords differ. -/
def mismatchState : FormState where
  form := [("password", "x"), ("confirmPassword", "")]
  formErrors := []

/-- A valid state carrying a stale error from an earlier failing pass. -/
def staleErrorsState : FormState where
  form := [("password", "x"), ("confirmPassword", "x")]
  formErrors := [("confirmPassword", "old error")]

/-! ### Record lemmas -/

theorem lookup_setKey_self (m : List (String × String)) (k v : String) :
    lookup (setKey m k v) k = some v := by
  induction m with
  | nil => simp [setKey, lookup]
  | cons p rest ih =>
    by_cases h : p.1 = k
    · simp [setKey, lookup, h]
    · simp [setKey, lookup, h, ih]

theorem lookup_setKey_other (m : List (String × String)) (k v k' : String)
    (h : k' ≠ k) :
    lookup (setKey m k v) k' = lookup m k' := by
  have hk : ¬ k = k' := fun hh => h hh.symm
  induction m with
  | nil => simp [setKey, lookup, hk]
  | cons p rest ih =>
    by_cases hp : p.1 = k
    · simp [setKey, lookup, hp, hk]
    · simp [setKey, lookup, hp, ih]

theorem mem_keysOf_setKey (m : List (String × String)) (k v k' : String)
    (h : k' ∈ keysOf (setKey m k v)) : k' = k ∨ k' ∈ keysOf m := by
  induction m with
  | nil => simpa [setKey, keysOf] using h
  | cons p rest ih =>
    by_cases hp : p.1 = k
    · simp only [setKey, hp, if_pos, keysOf, List.map_cons, List.mem_cons] at h ⊢
      tauto
    · simp only [setKey, hp, if_neg, not_false_iff, keysOf, List.map_cons,
        List.mem_cons] at h ⊢
      rcases h with h | h
      · tauto
      · rcases ih h with h' | h' <;> tauto

theorem keysOf_setKey_superset (m : List (String × String)) (k v k' : String)
    (h : k' ∈ keysOf m) : k' ∈ keysOf (setKey m k v) := by
  induction m with
  | nil => simp [keysOf] at h
  | cons p rest ih =>
    by_cases hp : p.1 = k
    · simp only [keysOf, List.map_cons, List.mem_cons] at h
      simp only [setKey, hp, if_pos, keysOf, List.map_cons, List.mem_cons]
      rcases h with h | h
      · left; rw [h, hp]
      · right; exact h
    · simp only [keysOf, List.map_cons, List.mem_cons] at h
      simp only [setKey, hp, if_neg, not_false_iff, keysOf, List.map_cons,
        List.mem_cons]
      rcases h with h | h
      · left; exact h
      · right; exact ih h

theorem self_mem_keysOf_setKey (m : List (String × String)) (k v : String) :
    k ∈ keysOf (setKey m k v) := by
  induction m with
  | nil => simp [setKey, keysOf]
  | cons p rest ih =>
    by_cases hp : p.1 = k
    · simp [setKey, hp, keysOf]
    · simp only [setKey, hp, if_neg, not_false_iff, keysOf, List.map_cons,
        List.mem_cons]
      right
      exact ih

theorem lookup_initialFormState (s : Schema) (k : String) :
    lookup (initialFormState s) k = if k ∈ s.shapeKeys then some "" else none := by
  unfold initialFormState
  induction s.shapeKeys with
  | nil => simp [lookup]
  | cons a rest ih =>
    by_cases h : a = k
    · simp [lookup, h]
    · have h' : ¬ k = a := fun hh => h hh.symm
      simp [lookup, h, h', ih]

theorem keysOf_initialFormState (s : Schema) :
    keysOf (initialFormState s) = s.shapeKeys := by
  unfold keysOf initialFormState
  induction s.shapeKeys with
  | nil => rfl
  | cons a rest ih => simp only [List.map_cons, ih]

/-! ### Issue-loop lemmas -/

theorem applyIssues_cons (errs : List (String × String)) (i : Issue)
    (rest : List Issue) :
    applyIssues errs (i :: rest) =
      match i.path with
      | [] => applyIssues errs rest
      | k :: _ =>
        if k = "" then applyIssues errs rest
        else applyIssues (setKey errs k i.message) rest := rfl

theorem applyIssues_cons_nil (errs : List (String × String)) (i : Issue)
    (rest : List Issue) (h : i.path = []) :
    applyIssues errs (i :: rest) = applyIssues errs rest := by
  rw [applyIssues_cons, h]

theorem applyIssues_cons_falsy (errs : List (String × String)) (i : Issue)
    (rest : List Issue) (k : String) (tail : List String)
    (h : i.path = k :: tail) (hk : k = "") :
    applyIssues errs (i :: rest) = applyIssues errs rest := by
  have he : applyIssues errs (i :: rest) =
      if k = "" then applyIssues errs rest
      else applyIssues (setKey errs k i.message) rest := by
    rw [applyIssues_cons, h]
  rw [he, if_pos hk]

theorem applyIssues_cons_set (errs : List (String × String)) (i : Issue)
    (rest : List Issue) (k : String) (tail : List String)
    (h : i.path = k :: tail) (hk : ¬ k = "") :
    applyIssues errs (i :: rest) = applyIssues (setKey errs k i.message) rest := by
  have he : applyIssues errs (i :: rest) =
      if k = "" then applyIssues errs rest
      else applyIssues (setKey errs k i.message) rest := by
    rw [applyIssues_cons, h]
  rw [he, if_neg hk]

theorem applyIssues_nil (errs : List (String × String)) :
    applyIssues errs [] = errs := rfl

theorem applyIssues_filter_nonempty (issues : List Issue) :
    ∀ errs, applyIssues errs (issues.filter (fun i => !i.path.isEmpty))
      = applyIssues errs issues := by
  induction issues with
  | nil => intro errs; rfl
  | cons i rest ih =>
    intro errs
    cases hpath : i.path with
    | nil =>
      rw [applyIssues_cons_nil errs i rest hpath]
      have hfil : (i :: rest).filter (fun j => !j.path.isEmpty)
          = rest.filter (fun j => !j.path.isEmpty) := by
        simp [List.filter_cons, hpath]
      rw [hfil]
      exact ih errs
    | cons k tail =>
      have hfil : (i :: rest).filter (fun j => !j.path.isEmpty)
          = i :: rest.filter (fun j => !j.path.isEmpty) := by
        simp [List.filter_cons, hpath]
      rw [hfil]
      by_cases hke : k = ""
      · rw [applyIssues_cons_falsy _ i _ k tail hpath hke,
          applyIssues_cons_falsy errs i rest k tail hpath hke]
        exact ih errs
      · rw [applyIssues_cons_set _ i _ k tail hpath hke,
          applyIssues_cons_set errs i rest k tail hpath hke]
        exact ih _

theorem lookup_applyIssues_untouched (issues : List Issue)
    (errs : List (String × String)) (k : String)
    (h : ∀ i ∈ issues, i.path.head? ≠ some k) :
    lookup (applyIssues errs issues) k = lookup errs k := by
  induction issues generalizing errs with
  | nil => rfl
  | cons i rest ih =>
    have hrest : ∀ j ∈ rest, j.path.head? ≠ some k :=
      fun j hj => h j (List.mem_cons_of_mem i hj)
    cases hpath : i.path with
    | nil =>
      rw [applyIssues_cons_nil errs i rest hpath]
      exact ih errs hrest
    | cons k' tail =>
      have hk' : k' ≠ k := by
        have := h i (List.mem_cons_self i rest)
        rw [hpath] at this
        simp only [List.head?] at this
        intro hh
        exact this (by rw [hh])
      by_cases hke : k' = ""
      · rw [applyIssues_cons_falsy errs i rest k' tail hpath hke]
        exact ih errs hrest
      · rw [applyIssues_cons_set errs i rest k' tail hpath hke]
        rw [ih _ hrest]
        exact lookup_setKey_other errs k' i.message k (fun hh => hk' hh.symm)

theorem lastMessageFor_eq_none (issues : List Issue) (k : String)
    (h : lastMessageFor issues k = none) :
    ∀ i ∈ issues, i.path.head? ≠ some k := by
  induction issues with
  | nil => simp
  | cons i rest ih =>
    unfold lastMessageFor at h
    cases hrest : lastMessageFor rest k with
    | some m => rw [hrest] at h; simp at h
    | none =>
      rw [hrest] at h
      simp only [] at h
      intro j hj
      rcases List.mem_cons.mp hj with hj | hj
      · subst hj
        intro hh
        rw [if_pos hh] at h
        exact Option.noConfusion h
      · exact ih hrest j hj

theorem lookup_applyIssues_last (issues : List Issue) (k : String)
    (m : String) (hk : k ≠ "") (h : lastMessageFor issues k = some m) :
    ∀ errs, lookup (applyIssues errs issues) k = some m := by
  induction issues with
  | nil => exact absurd h (by simp [lastMessageFor])
  | cons i rest ih =>
    intro errs
    unfold lastMessageFor at h
    cases hrest : lastMessageFor rest k with
    | some m' =>
      rw [hrest] at h
      simp only [Option.some.injEq] at h
      subst h
      cases hpath : i.path with
      | nil =>
        rw [applyIssues_cons_nil errs i rest hpath]
        exact ih hrest errs
      | cons k' tail =>
        by_cases hke : k' = ""
        · rw [applyIssues_cons_falsy errs i rest k' tail hpath hke]
          exact ih hrest errs
        · rw [applyIssues_cons_set errs i rest k' tail hpath hke]
          exact ih hrest _
    | none =>
      rw [hrest] at h
      simp only [] at h
      by_cases hif : i.path.head? = some k
      · rw [if_pos hif] at h
        simp only [Option.some.injEq] at h
        subst h
        cases hpath : i.path with
        | nil => rw [hpath] at hif; exact absurd hif (by simp)
        | cons k' tail =>
          rw [hpath] at hif
          simp only [List.head?, Option.some.injEq] at hif
          subst hif
          rw [applyIssues_cons_set errs i rest k' tail hpath hk]
          rw [lookup_applyIssues_untouched rest _ k' (lastMessageFor_eq_none rest k' hrest)]
          exact lookup_setKey_self errs k' i.message
      · rw [if_neg hif] at h
        exact Option.noConfusion h

/-! ### Controller-step lemmas -/

theorem handleChange_formErrors (s : Schema) (st : FormState) (n v : String) :
    (handleChange s st n v).formErrors = st.formErrors := by
  unfold handleChange
  split <;> rfl

theorem handleChange_mem (s : Schema) (st : FormState) (n v : String)
    (h : n ∈ s.shapeKeys) :
    handleChange s st n v = { st with form := setKey st.form n v } := by
  unfold handleChange
  rw [if_pos (Or.inl h)]

theorem validate_success_state (s : Schema) (st : FormState)
    (h : s.safeParse st.form = ParseResult.success) :
    validate s st = (true, { st with formErrors := initialFormState s }) := by
  unfold validate
  rw [h]

theorem validate_failure_state (s : Schema) (st : FormState) (issues : List Issue)
    (h : s.safeParse st.form = ParseResult.failure issues) :
    validate s st =
      (false, { st with formErrors := applyIssues (initialFormState s) issues }) := by
  unfold validate
  rw [h]

theorem keysOf_applyIssues_subset (S : List String) (issues : List Issue)
    (hi : ∀ i ∈ issues, ∀ k tail, i.path = k :: tail → k ≠ "" → k ∈ S) :
    ∀ errs, (∀ k ∈ keysOf errs, k ∈ S) →
      ∀ k ∈ keysOf (applyIssues errs issues), k ∈ S := by
  induction issues with
  | nil => intro errs he k hk; exact he k hk
  | cons i rest ih =>
    intro errs he k hk
    have hirest : ∀ j ∈ rest, ∀ k tail, j.path = k :: tail → k ≠ "" → k ∈ S :=
      fun j hj => hi j (List.mem_cons_of_mem i hj)
    cases hpath : i.path with
    | nil =>
      rw [applyIssues_cons_nil errs i rest hpath] at hk
      exact ih hirest errs he k hk
    | cons k' tail =>
      by_cases hke : k' = ""
      · rw [applyIssues_cons_falsy errs i rest k' tail hpath hke] at hk
        exact ih hirest errs he k hk
      · rw [applyIssues_cons_set errs i rest k' tail hpath hke] at hk
        refine ih hirest (setKey errs k' i.message) ?_ k hk
        intro k2 hk2
        rcases mem_keysOf_setKey errs k' i.message k2 hk2 with h2 | h2
        · subst h2
          exact hi i (List.mem_cons_self i rest) k2 tail hpath hke
        · exact he k2 h2

theorem keysOf_applyIssues_superset (issues : List Issue) :
    ∀ errs k, k ∈ keysOf errs → k ∈ keysOf (applyIssues errs issues) := by
  induction issues with
  | nil => intro errs k hk; exact hk
  | cons i rest ih =>
    intro errs k hk
    cases hpath : i.path with
    | nil =>
      rw [applyIssues_cons_nil errs i rest hpath]
      exact ih errs k hk
    | cons k' tail =>
      by_cases hke : k' = ""
      · rw [applyIssues_cons_falsy errs i rest k' tail hpath hke]
        exact ih errs k hk
      · rw [applyIssues_cons_set errs i rest k' tail hpath hke]
        exact ih _ k (keysOf_setKey_superset errs k' i.message k hk)

theorem registerSchema_targets_keys : IssuesTargetSchemaKeys registerSchema := by
  intro form issues h i hi k rest hpath hk
  simp only [registerSchema] at h
  by_cases hc : lookup form "password" = lookup form "confirmPassword"
  · rw [if_pos hc] at h
    exact ParseResult.noConfusion h
  · rw [if_neg hc] at h
    simp only [ParseResult.failure.injEq] at h
    subst h
    simp only [List.mem_singleton] at hi
    subst hi
    simp only [List.cons.injEq] at hpath
    rw [← hpath.1]
    simp [registerSchema]

theorem validate_success_fst (s : Schema) (st : FormState)
    (h : s.safeParse st.form = ParseResult.success) :
    (validate s st).1 = true := by
  rw [validate_success_state s st h]

theorem validate_success_formErrors (s : Schema) (st : FormState)
    (h : s.safeParse st.form = ParseResult.success) :
    (validate s st).2.formErrors = initialFormState s := by
  rw [validate_success_state s st h]

theorem validate_failure_fst (s : Schema) (st : FormState) (issues : List Issue)
    (h : s.safeParse st.form = ParseResult.failure issues) :
    (validate s st).1 = false := by
  rw [validate_failure_state s st issues h]

theorem validate_failure_formErrors (s : Schema) (st : FormState)
    (issues : List Issue)
    (h : s.safeParse st.form = ParseResult.failure issues) :
    (validate s st).2.formErrors = applyIssues (initialFormState s) issues := by
  rw [validate_failure_state s st issues h]

/-! ### Claim theorems -/

/-- C3: Immediately after construction by `useForm`, Field Values has exactly
the schema's declared keys, each mapped to the empty string, and Field Errors
is the empty record with no keys. -/
theorem useForm_initial_state (s : Schema) (k : String) :
    keysOf (useForm s).form = s.shapeKeys ∧
    lookup (useForm s).form k = (if k ∈ s.shapeKeys then some "" else none) ∧
    (useForm s).formErrors = [] :=
  ⟨keysOf_initialFormState s, lookup_initialFormState s k, rfl⟩

/-- C10: `validate` never modifies Field Values: for every schema and state,
the `form` record after a `validate` call equals the one before. -/
theorem validate_preserves_form (s : Schema) (st : FormState) :
    (validate s st).2.form = st.form := by
  unfold validate
  cases s.safeParse st.form <;> rfl

/-- C4: For a field name in the schema's key set, `handleChange` writes the
event value into Field Values at that key and leaves every other key of
Field Values unchanged. -/
theorem handleChange_valid_name (s : Schema) (st : FormState) (n v : String)
    (h : n ∈ s.shapeKeys) :
    lookup (handleChange s st n v).form n = some v ∧
    ∀ k, k ≠ n → lookup (handleChange s st n v).form k = lookup st.form k := by
  rw [handleChange_mem s st n v h]
  exact ⟨lookup_setKey_self st.form n v,
    fun k hk => lookup_setKey_other st.form n v k hk⟩

/-- Witness for C4 at the README schema: changing `password` to `secret`. -/
theorem handleChange_valid_name_witness :
    "password" ∈ registerSchema.shapeKeys ∧
    lookup (handleChange registerSchema (useForm registerSchema)
      "password" "secret").form "password" = some "secret" :=
  ⟨by decide, (handleChange_valid_name registerSchema (useForm registerSchema)
    "password" "secret" (by decide)).1⟩

/-- C5 at the failing input: the source guard `name in schema.shape` also
finds the `Object.prototype` property `toString`, so a change event named
`toString` — a name not in the schema's key set, which the code's own
comment and `Invalid input name` diagnostic say must be ignored — is not
ignored: `setForm` runs and Field Values changes, gaining a `toString`
binding. -/
theorem handleChange_proto_bug :
    "toString" ∉ registerSchema.shapeKeys ∧
    (handleChange registerSchema (useForm registerSchema) "toString" "v").form
      ≠ (useForm registerSchema).form ∧
    lookup (handleChange registerSchema (useForm registerSchema)
      "toString" "v").form "toString" = some "v" :=
  ⟨by decide, by decide, by decide⟩

/-- C1: On values satisfying the schema, `validate` returns `true` and
afterwards no key of Field Errors carries an error message (every binding is
the empty string), whatever errors — including stale ones from an earlier
failing pass — Field Errors held before. -/
theorem validate_success_clears_errors (s : Schema) (st : FormState)
    (h : s.safeParse st.form = ParseResult.success) :
    (validate s st).1 = true ∧
    ∀ k msg, lookup (validate s st).2.formErrors k = some msg → msg = "" := by
  refine ⟨validate_success_fst s st h, fun k msg hm => ?_⟩
  rw [validate_success_formErrors s st h, lookup_initialFormState] at hm
  by_cases hk : k ∈ s.shapeKeys
  · rw [if_pos hk] at hm
    injection hm with hm
    exact hm.symm
  · rw [if_neg hk] at hm
    exact Option.noConfusion hm

/-- Witness for C1: a state with equal passwords and a stale error from an
earlier failing pass validates to `true`. -/
theorem validate_success_clears_errors_witness :
    registerSchema.safeParse staleErrorsState.form = ParseResult.success ∧
    (validate registerSchema staleErrorsState).1 = true :=
  ⟨by decide, (validate_success_clears_errors registerSchema staleErrorsState
    (by decide)).1⟩

/-- C2 counterexample: `emptySegmentSchema` reports one issue whose path
`[""]` is non-empty, yet `validate` does not write its message to Field
Errors at the first segment — the truthiness test on `issue.path[0]` drops
a first segment that is the empty string. -/
theorem validate_falsy_segment_counterexample :
    emptySegmentSchema.safeParse (useForm emptySegmentSchema).form
      = ParseResult.failure [{ path := [""], message := "boom" }] ∧
    ({ path := [""], message := "boom" } : Issue).path ≠ [] ∧
    lookup (validate emptySegmentSchema
      (useForm emptySegmentSchema)).2.formErrors "" ≠ some "boom" := by
  refine ⟨rfl, by decide, by decide⟩

/-- C2 (amended): on a failing parse, `validate` returns `false`, and for
each issue whose path is non-empty and whose first segment is a non-empty
string, Field Errors at that segment equals the message of the last such
issue targeting it (last issue wins); an issue whose first path segment is
the empty string is dropped like an empty-path issue. -/
theorem validate_failure_sets_last_message (s : Schema) (st : FormState)
    (issues : List Issue)
    (h : s.safeParse st.form = ParseResult.failure issues) :
    (validate s st).1 = false ∧
    ∀ k, k ≠ "" → ∀ m, lastMessageFor issues k = some m →
      lookup (validate s st).2.formErrors k = some m := by
  refine ⟨validate_failure_fst s st issues h, fun k hk m hm => ?_⟩
  rw [validate_failure_formErrors s st issues h]
  exact lookup_applyIssues_last issues k m hk hm (initialFormState s)

/-- Witness for C2 (amended): two issues target `email`; the second one's
message ends up in Field Errors. -/
theorem validate_failure_sets_last_message_witness :
    duplicateIssueSchema.safeParse (useForm duplicateIssueSchema).form
      = ParseResult.failure
        [{ path := ["email"], message := "first" },
         { path := ["email"], message := "second" }] ∧
    lookup (validate duplicateIssueSchema
      (useForm duplicateIssueSchema)).2.formErrors "email" = some "second" :=
  ⟨by decide, (validate_failure_sets_last_message duplicateIssueSchema
    (useForm duplicateIssueSchema)
    [{ path := ["email"], message := "first" },
     { path := ["email"], message := "second" }]
    (by decide)).2 "email" (by decide) "second" (by decide)⟩

/-- C6: during a failing `validate`, issues with an empty path are dropped:
deleting them from the issue list does not change the resulting Field
Errors, so an empty-path issue is attached to no key. -/
theorem validate_drops_empty_path (s : Schema) (st : FormState)
    (issues : List Issue)
    (h : s.safeParse st.form = ParseResult.failure issues) :
    (validate s st).1 = false ∧
    (validate s st).2.formErrors =
      applyIssues (initialFormState s)
        (issues.filter (fun i => !i.path.isEmpty)) := by
  refine ⟨validate_failure_fst s st issues h, ?_⟩
  rw [validate_failure_formErrors s st issues h]
  exact (applyIssues_filter_nonempty issues (initialFormState s)).symm

/-- Witness for C6: a schema whose cross-field rule reports a form-level
issue with an empty path. -/
theorem validate_drops_empty_path_witness :
    crossFieldSchema.safeParse mismatchState.form
      = ParseResult.failure [{ path := [], message := "mismatch" }] ∧
    (validate crossFieldSchema mismatchState).2.formErrors =
      applyIssues (initialFormState crossFieldSchema)
        (([{ path := [], message := "mismatch" }] : List Issue).filter
          (fun i => !i.path.isEmpty)) :=
  ⟨by decide, (validate_drops_empty_path crossFieldSchema mismatchState
    [{ path := [], message := "mismatch" }] (by decide)).2⟩

/-- C7: when the failing parse reports exactly one issue, with path
`["confirmPassword"]`, `validate` sets Field Errors at `confirmPassword` to
that issue's message and gives no other key an error (every other key is
absent or bound to the empty string). -/
theorem validate_cross_field_single_issue (s : Schema) (st : FormState)
    (msg : String)
    (h : s.safeParse st.form
      = ParseResult.failure [{ path := ["confirmPassword"], message := msg }]) :
    lookup (validate s st).2.formErrors "confirmPassword" = some msg ∧
    ∀ k, k ≠ "confirmPassword" →
      lookup (validate s st).2.formErrors k = none ∨
      lookup (validate s st).2.formErrors k = some "" := by
  have he : (validate s st).2.formErrors
      = setKey (initialFormState s) "confirmPassword" msg := by
    rw [validate_failure_formErrors s st _ h,
      applyIssues_cons_set _ _ _ "confirmPassword" [] rfl (by decide),
      applyIssues_nil]
  rw [he]
  constructor
  · exact lookup_setKey_self _ _ _
  · intro k hk
    rw [lookup_setKey_other _ _ _ k hk, lookup_initialFormState]
    by_cases hks : k ∈ s.shapeKeys
    · right
      rw [if_pos hks]
    · left
      rw [if_neg hks]

/-- Witness for C7: the README registration schema with differing
passwords. -/
theorem validate_cross_field_single_issue_witness :
    registerSchema.safeParse mismatchState.form
      = ParseResult.failure
        [{ path := ["confirmPassword"], message := "The passwords do not match" }] ∧
    lookup (validate registerSchema mismatchState).2.formErrors "confirmPassword"
      = some "The passwords do not match" :=
  ⟨by decide, (validate_cross_field_single_issue registerSchema mismatchState
    "The passwords do not match" (by decide)).1⟩

/-- C8 counterexample: against `roguePathSchema` — whose `superRefine`
reports its issue at path `["b"]`, not a schema key — one `validate` call
reaches a state whose Field Errors contains the key `"b"` outside the
schema's key set. -/
theorem formErrors_subset_counterexample :
    Reachable roguePathSchema
      (validate roguePathSchema (useForm roguePathSchema)).2 ∧
    "b" ∈ keysOf
      (validate roguePathSchema (useForm roguePathSchema)).2.formErrors ∧
    "b" ∉ roguePathSchema.shapeKeys :=
  ⟨Reachable.valid _ Reachable.init, by decide, by decide⟩

/-- C8 (amended): provided the validator only reports issues whose truthy
first path segment is one of the schema's keys, the keys of Field Errors in
every reachable state form a subset of the schema's key set; and after a
failing `validate`, a field not named as the first path segment of any
issue has no error (absent or bound to the empty string). -/
theorem formErrors_keys_invariant (s : Schema)
    (hs : IssuesTargetSchemaKeys s) :
    (∀ st, Reachable s st → ∀ k ∈ keysOf st.formErrors, k ∈ s.shapeKeys) ∧
    (∀ st issues, s.safeParse st.form = ParseResult.failure issues →
      ∀ k, (∀ i ∈ issues, i.path.head? ≠ some k) →
        lookup (validate s st).2.formErrors k = none ∨
        lookup (validate s st).2.formErrors k = some "") := by
  constructor
  · intro st hr
    induction hr with
    | init => intro k hk; simp [useForm, keysOf] at hk
    | change st n v hr ih =>
      intro k hk
      rw [handleChange_formErrors] at hk
      exact ih k hk
    | valid st hr ih =>
      intro k hk
      cases hp : s.safeParse st.form with
      | success =>
        rw [validate_success_formErrors s st hp, keysOf_initialFormState] at hk
        exact hk
      | failure issues =>
        rw [validate_failure_formErrors s st issues hp] at hk
        refine keysOf_applyIssues_subset s.shapeKeys issues
          (fun i hi k2 tail hp2 hk2 => hs st.form issues hp i hi k2 tail hp2 hk2)
          (initialFormState s) ?_ k hk
        intro k2 hk2
        rw [keysOf_initialFormState] at hk2
        exact hk2
  · intro st issues hp k hnk
    rw [validate_failure_formErrors s st issues hp,
      lookup_applyIssues_untouched issues _ k hnk, lookup_initialFormState]
    by_cases hks : k ∈ s.shapeKeys
    · right
      rw [if_pos hks]
    · left
      rw [if_neg hks]

/-- Witness for C8 (amended) at the README schema, whose single
`superRefine` issue targets the schema key `confirmPassword`. -/
theorem formErrors_keys_invariant_witness :
    "confirmPassword" ∈ registerSchema.shapeKeys :=
  (formErrors_keys_invariant registerSchema registerSchema_targets_keys).1
    (validate registerSchema (useForm registerSchema)).2
    (Reachable.valid _ Reachable.init) "confirmPassword" (by decide)

/-- C9 counterexample: after `validate` against `roguePathSchema`, the key
set of Field Errors is not exactly the schema's key set — the rogue issue
path contributes the extra key `"b"`. -/
theorem validate_keys_exact_counterexample :
    "b" ∈ keysOf
      (validate roguePathSchema (useForm roguePathSchema)).2.formErrors ∧
    "b" ∉ roguePathSchema.shapeKeys :=
  ⟨by decide, by decide⟩

/-- C9 (amended): after any `validate` call — success or failure — every
schema key is present in Field Errors (the reconcile against the
all-empty-string initial record puts it there), and every schema key not
targeted by a validation issue maps to the empty string rather than being
absent; the key set is exactly the schema's full key set provided every
issue's truthy first path segment is a schema key (otherwise issue paths
contribute extra keys, as the counterexample shows). -/
theorem validate_resets_error_keys (s : Schema) (st : FormState) :
    (∀ k ∈ s.shapeKeys, k ∈ keysOf (validate s st).2.formErrors) ∧
    (s.safeParse st.form = ParseResult.success →
      ∀ k ∈ s.shapeKeys, lookup (validate s st).2.formErrors k = some "") ∧
    (∀ issues, s.safeParse st.form = ParseResult.failure issues →
      ∀ k ∈ s.shapeKeys, (∀ i ∈ issues, i.path.head? ≠ some k) →
        lookup (validate s st).2.formErrors k = some "") ∧
    (IssuesTargetSchemaKeys s →
      ∀ k, k ∈ keysOf (validate s st).2.formErrors ↔ k ∈ s.shapeKeys) := by
  refine ⟨?_, ?_, ?_, ?_⟩
  · intro k hk
    cases hp : s.safeParse st.form with
    | success =>
      rw [validate_success_formErrors s st hp, keysOf_initialFormState]
      exact hk
    | failure issues =>
      rw [validate_failure_formErrors s st issues hp]
      refine keysOf_applyIssues_superset issues (initialFormState s) k ?_
      rw [keysOf_initialFormState]
      exact hk
  · intro hp k hk
    rw [validate_success_formErrors s st hp, lookup_initialFormState, if_pos hk]
  · intro issues hp k hk hnk
    rw [validate_failure_formErrors s st issues hp,
      lookup_applyIssues_untouched issues _ k hnk, lookup_initialFormState,
      if_pos hk]
  · intro hs k
    cases hp : s.safeParse st.form with
    | success =>
      rw [validate_success_formErrors s st hp, keysOf_initialFormState]
    | failure issues =>
      rw [validate_failure_formErrors s st issues hp]
      constructor
      · intro hk
        refine keysOf_applyIssues_subset s.shapeKeys issues
          (fun i hi k2 tail hp2 hk2 => hs st.form issues hp i hi k2 tail hp2 hk2)
          (initialFormState s) ?_ k hk
        intro k2 hk2
        rw [keysOf_initialFormState] at hk2
        exact hk2
      · intro hk
        refine keysOf_applyIssues_superset issues (initialFormState s) k ?_
        rw [keysOf_initialFormState]
        exact hk

/-- Witness for C9 (amended): after a successful pass at the README schema,
the untargeted key `password` is present and bound to the empty string. -/
theorem validate_resets_error_keys_witness :
    lookup (validate registerSchema staleErrorsState).2.formErrors "password"
      = some "" :=
  (validate_resets_error_keys registerSchema staleErrorsState).2.1
    (by decide) "password" (by decide)

end SolidHookForm
